import Mathlib

/-!
Verification of the file-backed Bloom filter engine
(`HIBP_data/Bloom_Filter_Creation/bloom_tool.py`).

The Python module is shallowly embedded: byte strings are lists of
naturals, the memory-mapped bit region is a list of byte values, and the
`BloomFilter` object and its on-disk file are explicit records.  The two
external hash primitives (the `mmh3` murmur3 hash and the `hashlib` md5
digest) are opaque parameters bundled in `HashImpl`; everything the tool
itself computes is translated from the source.  Python exceptions are
`Except` errors, one constructor per raise site.
-/

set_option maxHeartbeats 1000000

/-- Constant `FAST_HASH_FUNC = 'murmur3'` from the tool. -/
def FAST_HASH_FUNC : String := "murmur3"

/-- Constant `DEFAULT_HASH_FUNC = 'md5'` from the tool. -/
def DEFAULT_HASH_FUNC : String := "md5"

/-- A byte string: list of byte values. -/
abbrev Bytes := List Nat

/-- The two external hash primitives used by `_get_hashes`.
`mmh3hash item seed` models `mmh3.hash(item, seed=seed, signed=False)`;
`md5digest msg` models `md5(msg).digest()` (a 16-byte digest). -/
structure HashImpl where
  mmh3hash : Bytes → Nat → Nat
  md5digest : Bytes → Bytes

/-- `int.from_bytes(bs, byteorder='little', signed=False)`. -/
def fromBytesLE : Bytes → Nat
  | [] => 0
  | b :: rest => b + 256 * fromBytesLE rest

/-- The md5 fallback chain in `_get_hashes`: repeatedly re-digest, and at
each round reduce the low 8 bytes (`current_hash[8:]`, little-endian)
modulo `m`. -/
def md5Chain (digest : Bytes → Bytes) (m : Nat) : Nat → Bytes → List Nat
  | 0, _ => []
  | kk + 1, cur => (fromBytesLE (cur.drop 8) % m) :: md5Chain digest m kk (digest cur)

/-- `BloomFilter._get_hashes`: the sequence of `k` bit positions for an
item.  The fast scheme is murmur3 double hashing
`(h1 + i*h2) mod m`; every other scheme name takes the md5 chain. -/
def hashIndices (hi : HashImpl) (name : String) (m k : Nat) (item : Bytes) : List Nat :=
  if name = FAST_HASH_FUNC then
    let hash1 := hi.mmh3hash item 0
    let hash2 := hi.mmh3hash item hash1
    (List.range k).map (fun i => (hash1 + i * hash2) % m)
  else
    md5Chain hi.md5digest m k (hi.md5digest item)

/-- One constructor per raise site of the tool. -/
inductive BloomError where
  | invalidP
  | invalidN
  | paramMismatchM
  | paramMismatchK
  | paramMismatchHash
  | fileNotFound
  | missingCreateParams
  | nonPositiveCreateParams
  | corruptHeader
  | truncatedFile
  | badMapLength
  | headerTooLong
  | sizeNotPositive
  | permissionDenied
  | mapUnavailable
  | runtimeHashUnavailable
  deriving DecidableEq

/-- The persisted filter file: the JSON header fields plus the `size`
bytes of the bit-array data region that begins at byte `offset`. -/
structure FilterFile where
  m : Nat
  k : Nat
  offset : Nat
  size : Nat
  hash_func_name : String
  data : Bytes
  deriving DecidableEq

/-- The in-memory `BloomFilter` object: header parameters, mode flags and
the mapped byte region `bits`. -/
structure BloomFilter where
  m : Nat
  k : Nat
  hash_func_name : String
  size : Nat
  offset : Nat
  alignment : Nat
  readonly : Bool
  isOpen : Bool
  bits : Bytes
  deriving DecidableEq

/-- `BloomFilter._open`: decode and validate the header, check the file
is long enough, and map `size` bytes starting at `offset`.  The
alignment recorded on the object is the stored `offset`. -/
def openFilter (file : FilterFile) (readonly : Bool) : Except BloomError BloomFilter :=
  if file.m = 0 ∨ file.k = 0 ∨ file.size = 0 ∨ file.offset = 0 then
    .error .corruptHeader
  else if file.offset + file.data.length < file.offset + file.size then
    .error .truncatedFile
  else if (if readonly then file.data.length else file.size) = 0 then
    .error .badMapLength
  else
    .ok { m := file.m, k := file.k, hash_func_name := file.hash_func_name,
          size := file.size, offset := file.offset, alignment := file.offset,
          readonly := readonly, isOpen := true, bits := file.data.take file.size }

/-- Number of decimal digits of `n` (length of `str(n)` for `n ≥ 0`),
with a structural fuel so the kernel can evaluate it. -/
def numDigitsAux : Nat → Nat → Nat
  | 0, _ => 1
  | fuel + 1, n => if n < 10 then 1 else 1 + numDigitsAux fuel (n / 10)

/-- Number of decimal digits of `n`. -/
def numDigits (n : Nat) : Nat := numDigitsAux n n

/-- Byte length of `json.dumps(hdr) + "\n"` for the header dictionary
written by `_create` (field order `m, k, offset, size, hash_func_name`,
default `json.dumps` separators). -/
def headerLen (m k offset size : Nat) (name : String) : Nat :=
  6 + numDigits m + 7 + numDigits k + 12 + numDigits offset +
    10 + numDigits size + 20 + (name.length + 2) + 1 + 1

/-- The aligned data-region size computed by `_create`:
`ceil(ceil(m/8) / alignment) * alignment`. -/
def alignedSize (m alignment : Nat) : Nat :=
  ((m + 7) / 8 + alignment - 1) / alignment * alignment

/-- `BloomFilter._create`: validate `m, k`, compute `offset` and the
aligned `size`, check the serialized header fits below `offset`, write
the header and a zero-extended data region, and map it.  Returns the
in-memory object together with the file it wrote. -/
def createFilter (m k : Nat) (name : String) (alignment : Nat) :
    Except BloomError (BloomFilter × FilterFile) :=
  if m = 0 ∨ k = 0 then .error .nonPositiveCreateParams
  else if alignedSize m alignment = 0 then .error .sizeNotPositive
  else if alignment < headerLen m k alignment (alignedSize m alignment) name then
    .error .headerTooLong
  else
    .ok ({ m := m, k := k, hash_func_name := name, size := alignedSize m alignment,
           offset := alignment, alignment := alignment, readonly := false,
           isOpen := true, bits := List.replicate (alignedSize m alignment) 0 },
         { m := m, k := k, offset := alignment, size := alignedSize m alignment,
           hash_func_name := name, data := List.replicate (alignedSize m alignment) 0 })

/-- `BloomFilter.__init__`: open-and-validate an existing file, or create
a new one.  `avail` models `_murmur_available`; `file?` is the content of
the path when it exists.  On the create path a requested murmur3 scheme
silently falls back to md5 when `mmh3` is unavailable. -/
def bloomInit (avail : Bool) (file? : Option FilterFile) (mArg kArg : Option Nat)
    (readonly : Bool) (hashArg : Option String) (alignment : Nat) :
    Except BloomError (BloomFilter × FilterFile) :=
  match file? with
  | some file =>
    match openFilter file readonly with
    | .error e => .error e
    | .ok bf =>
      if readonly then .ok (bf, file)
      else if mArg.any (fun mv => mv != bf.m) then .error .paramMismatchM
      else if kArg.any (fun kv => kv != bf.k) then .error .paramMismatchK
      else if hashArg.any (fun hv => hv != bf.hash_func_name) then .error .paramMismatchHash
      else .ok (bf, file)
  | none =>
    if readonly then .error .fileNotFound
    else
      match mArg, kArg with
      | some m, some k =>
        if m = 0 ∨ k = 0 then .error .nonPositiveCreateParams
        else
          let name0 := hashArg.getD (if avail then FAST_HASH_FUNC else DEFAULT_HASH_FUNC)
          let name := if name0 = FAST_HASH_FUNC ∧ avail = false then DEFAULT_HASH_FUNC
                      else name0
          createFilter m k name alignment
      | _, _ => .error .missingCreateParams

/-- The bit write of `add`/`update`: `bits[h//8] |= 1 << h%8`, guarded by
the `0 <= byte_idx < self.size` bounds check (out of range is logged and
skipped). -/
def setIdx (size : Nat) (bits : Bytes) (h : Nat) : Bytes :=
  if h / 8 < size then bits.set (h / 8) (bits.getD (h / 8) 0 ||| (1 <<< (h % 8)))
  else bits

/-- Set every index of a list. -/
def setIndices (size : Nat) (bits : Bytes) (idxs : List Nat) : Bytes :=
  idxs.foldl (setIdx size) bits

/-- The bit test of `contains`: in-bounds and the masked byte is
non-zero; out of range counts as absent. -/
def testIdx (size : Nat) (bits : Bytes) (h : Nat) : Bool :=
  decide (h / 8 < size) && (bits.getD (h / 8) 0 &&& (1 <<< (h % 8)) != 0)

/-- Unguarded bit write (no `byte_idx < size` bounds branch). -/
def setIdxU (bits : Bytes) (h : Nat) : Bytes :=
  bits.set (h / 8) (bits.getD (h / 8) 0 ||| (1 <<< (h % 8)))

/-- Unguarded bit test (no bounds branch). -/
def testIdxU (bits : Bytes) (h : Nat) : Bool :=
  bits.getD (h / 8) 0 &&& (1 <<< (h % 8)) != 0

/-- Whether `_get_hashes` can run without raising: `m` is positive and
the selected scheme is available. -/
def hashOk (avail : Bool) (bf : BloomFilter) : Bool :=
  bf.m != 0 && (bf.hash_func_name != FAST_HASH_FUNC || avail)

/-- `BloomFilter.add`: refuse read-only or unmapped filters, then set the
`k` positions of the item (hash failures propagate as errors, as in the
source where `add` has no handler for them). -/
def addE (hi : HashImpl) (avail : Bool) (bf : BloomFilter) (item : Bytes) :
    Except BloomError BloomFilter :=
  if bf.readonly then .error .permissionDenied
  else if bf.isOpen = false then .error .mapUnavailable
  else if hashOk avail bf = false then .error .runtimeHashUnavailable
  else .ok { bf with
             bits := setIndices bf.size bf.bits
               (hashIndices hi bf.hash_func_name bf.m bf.k item) }

/-- `BloomFilter.update`: collect the set of indices over all items
first (per-item hash errors are caught and logged, contributing no
indices), then set each unique index once. -/
def updateE (hi : HashImpl) (avail : Bool) (bf : BloomFilter) (items : List Bytes) :
    Except BloomError BloomFilter :=
  if bf.readonly then .error .permissionDenied
  else if bf.isOpen = false then .error .mapUnavailable
  else
    let idxs := if hashOk avail bf then
        (items.flatMap (hashIndices hi bf.hash_func_name bf.m bf.k)).dedup
      else []
    .ok { bf with bits := setIndices bf.size bf.bits idxs }

/-- `BloomFilter.contains`: unmapped filters are an error; hash failures
are caught and resolve to `False`; otherwise every one of the `k` bits
must be set (short-circuiting on the first unset or out-of-range bit). -/
def containsE (hi : HashImpl) (avail : Bool) (bf : BloomFilter) (item : Bytes) :
    Except BloomError Bool :=
  if bf.isOpen = false then .error .mapUnavailable
  else if hashOk avail bf = false then .ok false
  else .ok ((hashIndices hi bf.hash_func_name bf.m bf.k item).all (testIdx bf.size bf.bits))

/-- `BloomFilter.sync`: flushes the map and file; no logical change to
the mapped bytes. -/
def syncBF (bf : BloomFilter) : BloomFilter := bf

/-- `BloomFilter.close`: release the map; the parameters and the
underlying file bytes survive. -/
def closeBF (bf : BloomFilter) : BloomFilter := { bf with isOpen := false }

/-- The on-disk content of a writable filter after its mmap writes: the
header it was created/opened with plus the current mapped bytes. -/
def BloomFilter.toFile (bf : BloomFilter) : FilterFile :=
  { m := bf.m, k := bf.k, offset := bf.offset, size := bf.size,
    hash_func_name := bf.hash_func_name, data := bf.bits }

/-- Well-formedness of an open filter, as established by `_create` and
`_open`: positive header parameters, a fully-mapped region and enough
bytes for all `m` bits. -/
def wfB (bf : BloomFilter) : Prop :=
  bf.m ≠ 0 ∧ bf.k ≠ 0 ∧ bf.size ≠ 0 ∧ bf.offset ≠ 0 ∧
    bf.bits.length = bf.size ∧ bf.m ≤ 8 * bf.size

/-- A concrete stand-in pair of hash primitives, used only to instantiate
the `HashImpl` parameter on sample inputs. -/
def sampleHash : HashImpl where
  mmh3hash := fun it seed => (it.foldl (fun a b => a * 31 + b) 7 + seed) % 4294967296
  md5digest := fun it => (List.range 16).map (fun i => (it.foldl (· + ·) i) % 256)

/-! ### Helper lemmas about the byte list primitives -/

lemma getD_set_self (l : Bytes) (i v : Nat) (h : i < l.length) :
    (l.set i v).getD i 0 = v := by
  rw [List.getD_eq_getElem?_getD, List.getElem?_set_self h]
  rfl

lemma getD_set_ne (l : Bytes) (i j v : Nat) (h : i ≠ j) :
    (l.set i v).getD j 0 = l.getD j 0 := by
  rw [List.getD_eq_getElem?_getD, List.getElem?_set_ne h, ← List.getD_eq_getElem?_getD]

lemma getD_out (l : Bytes) (i : Nat) (h : l.length ≤ i) : l.getD i 0 = 0 := by
  rw [List.getD_eq_getElem?_getD, List.getElem?_eq_none h]
  rfl

lemma maskTest (x r : Nat) : (x &&& (1 <<< r) != 0) = x.testBit r := by
  rw [Nat.one_shiftLeft, Nat.and_two_pow]
  cases h : x.testBit r
  · simp
  · simp [(Nat.two_pow_pos r).ne']

lemma length_setIdx (s : Nat) (bits : Bytes) (h : Nat) :
    (setIdx s bits h).length = bits.length := by
  unfold setIdx
  split
  · exact List.length_set ..
  · rfl

lemma length_setIndices (s : Nat) (idxs : List Nat) (bits : Bytes) :
    (setIndices s bits idxs).length = bits.length := by
  induction idxs generalizing bits with
  | nil => rfl
  | cons a t ih =>
    show (setIndices s (setIdx s bits a) t).length = _
    rw [ih, length_setIdx]

lemma testIdx_length_lt (s : Nat) (bits : Bytes) (h : Nat)
    (ht : testIdx s bits h = true) : h / 8 < bits.length := by
  by_contra hc
  push_neg at hc
  rw [testIdx, getD_out bits _ hc] at ht
  simp at ht

lemma testIdx_setIdx_self (s : Nat) (bits : Bytes) (h : Nat)
    (hlt : h / 8 < s) (hlen : h / 8 < bits.length) :
    testIdx s (setIdx s bits h) h = true := by
  rw [testIdx, setIdx, if_pos hlt, getD_set_self _ _ _ hlen, maskTest]
  simp [hlt, Nat.one_shiftLeft, Nat.testBit_or, Nat.testBit_two_pow_self]

lemma testIdx_setIdx_mono (s : Nat) (bits : Bytes) (h h2 : Nat)
    (ht : testIdx s bits h = true) : testIdx s (setIdx s bits h2) h = true := by
  have hlen : h / 8 < bits.length := testIdx_length_lt s bits h ht
  rw [testIdx, maskTest] at ht ⊢
  simp only [Bool.and_eq_true] at ht
  simp only [setIdx]
  split
  · by_cases hp : h2 / 8 = h / 8
    · rw [hp, getD_set_self _ _ _ hlen, Bool.and_eq_true]
      refine ⟨ht.1, ?_⟩
      rw [Nat.one_shiftLeft, Nat.testBit_or, ht.2, Bool.true_or]
    · rw [getD_set_ne _ _ _ _ hp, Bool.and_eq_true]
      exact ht
  · rw [Bool.and_eq_true]
    exact ht

lemma testIdx_setIndices_mono (s : Nat) (idxs : List Nat) (bits : Bytes) (h : Nat)
    (ht : testIdx s bits h = true) : testIdx s (setIndices s bits idxs) h = true := by
  induction idxs generalizing bits with
  | nil => exact ht
  | cons a t ih => exact ih (setIdx s bits a) (testIdx_setIdx_mono s bits h a ht)

lemma testIdx_setIndices_mem (s : Nat) (idxs : List Nat) (bits : Bytes) (h : Nat)
    (hmem : h ∈ idxs) (hlt : h / 8 < s) (hlen : h / 8 < bits.length) :
    testIdx s (setIndices s bits idxs) h = true := by
  induction idxs generalizing bits with
  | nil => cases hmem
  | cons a t ih =>
    show testIdx s (setIndices s (setIdx s bits a) t) h = true
    rcases List.mem_cons.mp hmem with heq | hmem2
    · subst heq
      exact testIdx_setIndices_mono s t _ h (testIdx_setIdx_self s bits h hlt hlen)
    · exact ih (setIdx s bits a) hmem2 (by rw [length_setIdx]; exact hlen)

lemma setIdx_idem (s : Nat) (b : Bytes) (h : Nat) :
    setIdx s (setIdx s b h) h = setIdx s b h := by
  by_cases g : h / 8 < s
  · by_cases hlen : h / 8 < b.length
    · simp only [setIdx, if_pos g]
      rw [getD_set_self _ _ _ hlen, List.set_set, Nat.or_assoc, Nat.or_self]
    · have hle := Nat.le_of_not_lt hlen
      simp only [setIdx, if_pos g, List.set_eq_of_length_le hle]
  · simp only [setIdx, if_neg g]

lemma setIdx_comm (s : Nat) (b : Bytes) (h1 h2 : Nat) :
    setIdx s (setIdx s b h1) h2 = setIdx s (setIdx s b h2) h1 := by
  by_cases g1 : h1 / 8 < s
  · by_cases g2 : h2 / 8 < s
    · by_cases hp : h1 / 8 = h2 / 8
      · by_cases hlen : h1 / 8 < b.length
        · simp only [setIdx, if_pos g1, if_pos g2, ← hp]
          rw [getD_set_self _ _ _ hlen, getD_set_self _ _ _ hlen,
              List.set_set, List.set_set,
              Nat.or_assoc, Nat.or_assoc, Nat.or_comm (1 <<< (h1 % 8)) (1 <<< (h2 % 8))]
        · have hle : b.length ≤ h1 / 8 := Nat.le_of_not_lt hlen
          have hle2 : b.length ≤ h2 / 8 := hp ▸ hle
          simp only [setIdx, if_pos g1, if_pos g2, List.set_eq_of_length_le hle,
            List.set_eq_of_length_le hle2]
      · simp only [setIdx, if_pos g1, if_pos g2]
        rw [getD_set_ne _ _ _ _ hp, getD_set_ne _ _ _ _ (Ne.symm hp),
            List.set_comm _ _ _ hp]
    · simp only [setIdx, if_pos g1, if_neg g2]
  · by_cases g2 : h2 / 8 < s
    · simp only [setIdx, if_pos g2, if_neg g1]
    · simp only [setIdx, if_neg g1, if_neg g2]

lemma foldl_mem_absorb {α β : Type} (f : α → β → α)
    (hcomm : ∀ a x y, f (f a x) y = f (f a y) x)
    (hidem : ∀ a x, f (f a x) x = f a x) :
    ∀ (l : List β) (a : α) (x : β), x ∈ l → l.foldl f (f a x) = l.foldl f a := by
  intro l
  induction l with
  | nil => intro a x hx; cases hx
  | cons c t ih =>
    intro a x hx
    rcases List.mem_cons.mp hx with heq | hmem
    · subst heq
      show t.foldl f (f (f a x) x) = t.foldl f (f a x)
      rw [hidem]
    · show t.foldl f (f (f a x) c) = t.foldl f (f a c)
      rw [hcomm a x c]
      exact ih (f a c) x hmem

lemma foldl_dedup {α β : Type} [DecidableEq β] (f : α → β → α)
    (hcomm : ∀ a x y, f (f a x) y = f (f a y) x)
    (hidem : ∀ a x, f (f a x) x = f a x) :
    ∀ (l : List β) (a : α), l.dedup.foldl f a = l.foldl f a := by
  intro l
  induction l with
  | nil => intro a; rfl
  | cons c t ih =>
    intro a
    by_cases hc : c ∈ t
    · rw [List.dedup_cons_of_mem hc]
      show t.dedup.foldl f a = t.foldl f (f a c)
      rw [ih a, ← foldl_mem_absorb f hcomm hidem t a c hc]
    · rw [List.dedup_cons_of_not_mem hc]
      show t.dedup.foldl f (f a c) = t.foldl f (f a c)
      exact ih (f a c)

/-! ### Properties of the hash indexer -/

lemma length_md5Chain (digest : Bytes → Bytes) (m : Nat) :
    ∀ (k : Nat) (cur : Bytes), (md5Chain digest m k cur).length = k := by
  intro k
  induction k with
  | zero => intro cur; rfl
  | succ kk ih => intro cur; simp [md5Chain, ih]

lemma mem_md5Chain_lt (digest : Bytes → Bytes) (m : Nat) (hm : 0 < m) :
    ∀ (k : Nat) (cur : Bytes) (h : Nat), h ∈ md5Chain digest m k cur → h < m := by
  intro k
  induction k with
  | zero => intro cur h hmem; cases hmem
  | succ kk ih =>
    intro cur h hmem
    rcases List.mem_cons.mp hmem with heq | hmem2
    · subst heq; exact Nat.mod_lt _ hm
    · exact ih (digest cur) h hmem2

lemma length_hashIndices (hi : HashImpl) (name : String) (m k : Nat) (item : Bytes) :
    (hashIndices hi name m k item).length = k := by
  rw [hashIndices]
  split
  · simp
  · exact length_md5Chain ..

lemma mem_hashIndices_lt (hi : HashImpl) (name : String) (m k : Nat) (item : Bytes)
    (hm : 0 < m) : ∀ h ∈ hashIndices hi name m k item, h < m := by
  intro h hmem
  rw [hashIndices] at hmem
  split at hmem
  · obtain ⟨i, _, hieq⟩ := List.mem_map.mp hmem
    exact hieq ▸ Nat.mod_lt _ hm
  · exact mem_md5Chain_lt hi.md5digest m hm k _ h hmem

lemma div8_lt_of_lt (h m s : Nat) (hlt : h < m) (hms : m ≤ 8 * s) : h / 8 < s := by
  rw [Nat.div_lt_iff_lt_mul (by norm_num : 0 < 8)]
  calc h < m := hlt
    _ ≤ 8 * s := hms
    _ = s * 8 := Nat.mul_comm 8 s

/-- Claim C6: the hash indexer is deterministic (it is a pure function of
`(item, m, k)` and the scheme) and well-formed: for `m > 0` it yields
exactly `k` positions, each in `[0, m)`, and under the fast (murmur3)
scheme the `i`-th position is `(h1 + i*h2) mod m` with
`h1 = mmh3(item, seed 0)` and `h2 = mmh3(item, seed h1)`. -/
theorem hash_indexer_spec (hi : HashImpl) (name : String) (m k : Nat) (item : Bytes)
    (hm : 0 < m) :
    (hashIndices hi name m k item).length = k ∧
    (∀ h ∈ hashIndices hi name m k item, h < m) ∧
    (name = FAST_HASH_FUNC → ∀ i, i < k →
      (hashIndices hi name m k item).getD i 0 =
        (hi.mmh3hash item 0 + i * hi.mmh3hash item (hi.mmh3hash item 0)) % m) := by
  refine ⟨length_hashIndices .., mem_hashIndices_lt hi name m k item hm, ?_⟩
  intro hname i hik
  subst hname
  rw [hashIndices, if_pos rfl, List.getD_eq_getElem?_getD, List.getElem?_map,
      List.getElem?_range hik]
  rfl

/-- Witness for `hash_indexer_spec` on a concrete instantiation. -/
theorem hash_indexer_spec_witness :
    (hashIndices sampleHash FAST_HASH_FUNC 10 3 [1, 2]).length = 3 ∧
    (∀ h ∈ hashIndices sampleHash FAST_HASH_FUNC 10 3 [1, 2], h < 10) ∧
    (FAST_HASH_FUNC = FAST_HASH_FUNC → ∀ i, i < 3 →
      (hashIndices sampleHash FAST_HASH_FUNC 10 3 [1, 2]).getD i 0 =
        (sampleHash.mmh3hash [1, 2] 0 +
          i * sampleHash.mmh3hash [1, 2] (sampleHash.mmh3hash [1, 2] 0)) % 10) :=
  hash_indexer_spec sampleHash FAST_HASH_FUNC 10 3 [1, 2] (by decide)

/-! ### Claim C9: in-bounds indices make the defensive branches dead -/

lemma foldl_setIdx_eq_unchecked (s : Nat) (l : List Nat) :
    ∀ (bits : Bytes), (∀ h ∈ l, h / 8 < s) →
      l.foldl (setIdx s) bits = l.foldl setIdxU bits := by
  induction l with
  | nil => intro bits _; rfl
  | cons a t ih =>
    intro bits hb
    show t.foldl (setIdx s) (setIdx s bits a) = t.foldl setIdxU (setIdxU bits a)
    rw [setIdx, if_pos (hb a (List.mem_cons_self a t))]
    exact ih _ (fun h hm => hb h (List.mem_cons_of_mem a hm))

lemma all_testIdx_eq_unchecked (s : Nat) (bits : Bytes) (l : List Nat)
    (hb : ∀ h ∈ l, h / 8 < s) :
    l.all (testIdx s bits) = l.all (testIdxU bits) := by
  induction l with
  | nil => rfl
  | cons a t ih =>
    rw [List.all_cons, List.all_cons,
        ih (fun h hm => hb h (List.mem_cons_of_mem a hm)), testIdx,
        decide_eq_true (hb a (List.mem_cons_self a t)), Bool.true_and, testIdxU]

/-- Claim C9: for a filter whose header satisfies `m ≤ 8 * size` (as
creation guarantees), every index produced by the hash indexer has its
byte index `h / 8` strictly below `size`, so the out-of-bounds
warning/skip branches of `add`/`update` and the out-of-bounds
`return False` branch of `contains` are never taken: the guarded bit
operations coincide with the unguarded ones. -/
theorem indices_in_bounds (hi : HashImpl) (name : String) (m k s : Nat)
    (bits : Bytes) (item : Bytes) (hm : 0 < m) (hms : m ≤ 8 * s) :
    (∀ h ∈ hashIndices hi name m k item, h / 8 < s) ∧
    setIndices s bits (hashIndices hi name m k item) =
      (hashIndices hi name m k item).foldl setIdxU bits ∧
    (hashIndices hi name m k item).all (testIdx s bits) =
      (hashIndices hi name m k item).all (testIdxU bits) := by
  have hb : ∀ h ∈ hashIndices hi name m k item, h / 8 < s := fun h hmem =>
    div8_lt_of_lt h m s (mem_hashIndices_lt hi name m k item hm h hmem) hms
  exact ⟨hb, foldl_setIdx_eq_unchecked s _ bits hb,
    all_testIdx_eq_unchecked s bits _ hb⟩

/-- Witness for `indices_in_bounds` on a concrete instantiation. -/
theorem indices_in_bounds_witness :
    (∀ h ∈ hashIndices sampleHash DEFAULT_HASH_FUNC 16 2 [3], h / 8 < 2) ∧
    setIndices 2 [0, 0] (hashIndices sampleHash DEFAULT_HASH_FUNC 16 2 [3]) =
      (hashIndices sampleHash DEFAULT_HASH_FUNC 16 2 [3]).foldl setIdxU [0, 0] ∧
    (hashIndices sampleHash DEFAULT_HASH_FUNC 16 2 [3]).all (testIdx 2 [0, 0]) =
      (hashIndices sampleHash DEFAULT_HASH_FUNC 16 2 [3]).all (testIdxU [0, 0]) :=
  indices_in_bounds sampleHash DEFAULT_HASH_FUNC 16 2 2 [0, 0] [3]
    (by decide) (by decide)

/-! ### Evaluation lemmas for the engine operations -/

lemma containsE_eval (hi : HashImpl) (avail : Bool) (bf : BloomFilter) (item : Bytes)
    (ho : bf.isOpen = true) (hh : hashOk avail bf = true) :
    containsE hi avail bf item =
      .ok ((hashIndices hi bf.hash_func_name bf.m bf.k item).all
        (testIdx bf.size bf.bits)) := by
  rw [containsE, if_neg (by simp [ho]), if_neg (by simp [hh])]

lemma addE_eval (hi : HashImpl) (avail : Bool) (bf : BloomFilter) (item : Bytes)
    (hw : bf.readonly = false) (ho : bf.isOpen = true) (hh : hashOk avail bf = true) :
    addE hi avail bf item = .ok { bf with
      bits := setIndices bf.size bf.bits
        (hashIndices hi bf.hash_func_name bf.m bf.k item) } := by
  rw [addE, if_neg (by simp [hw]), if_neg (by simp [ho]), if_neg (by simp [hh])]

lemma updateE_eval (hi : HashImpl) (avail : Bool) (bf : BloomFilter) (items : List Bytes)
    (hw : bf.readonly = false) (ho : bf.isOpen = true) (hh : hashOk avail bf = true) :
    updateE hi avail bf items = .ok { bf with
      bits := setIndices bf.size bf.bits
        ((items.flatMap (hashIndices hi bf.hash_func_name bf.m bf.k)).dedup) } := by
  rw [updateE, if_neg (by simp [hw]), if_neg (by simp [ho])]
  rw [if_pos hh]

lemma openFilter_wf (file : FilterFile) (ro : Bool)
    (hm : file.m ≠ 0) (hk : file.k ≠ 0) (hs : file.size ≠ 0) (hoff : file.offset ≠ 0)
    (hlen : file.data.length = file.size) :
    openFilter file ro = .ok
      { m := file.m, k := file.k, hash_func_name := file.hash_func_name,
        size := file.size, offset := file.offset, alignment := file.offset,
        readonly := ro, isOpen := true, bits := file.data } := by
  rw [openFilter, if_neg (by simp [hm, hk, hs, hoff]), if_neg (by omega),
      if_neg (by cases ro <;> simp [hlen, hs]),
      List.take_of_length_le (le_of_eq hlen)]

/-! ### Claim C1: no false negatives, including across sync/close/reopen -/

/-- Claim C1: on a well-formed open writable filter, `add(item)` succeeds
and `contains(item)` is true immediately afterwards; it stays true after
`sync`, and after `close` followed by reopening the persisted file (in
either mode); likewise `update(items)` with the item included makes
`contains(item)` true, immediately, after `sync`, and after `close` and
reopen of the persisted file.  Items are modelled as their UTF-8 byte
strings, which is what both `add` and `contains` hash. -/
theorem add_then_contains_persists (hi : HashImpl) (avail : Bool) (bf : BloomFilter)
    (item : Bytes) (ro : Bool) (items : List Bytes)
    (hwf : wfB bf) (hw : bf.readonly = false) (ho : bf.isOpen = true)
    (hh : hashOk avail bf = true) :
    ∃ bf1, addE hi avail bf item = .ok bf1 ∧
      containsE hi avail bf1 item = .ok true ∧
      containsE hi avail (syncBF bf1) item = .ok true ∧
      (∃ bf2, openFilter (closeBF bf1).toFile ro = .ok bf2 ∧
        containsE hi avail bf2 item = .ok true) ∧
      (item ∈ items → ∃ bu, updateE hi avail bf items = .ok bu ∧
        containsE hi avail bu item = .ok true ∧
        containsE hi avail (syncBF bu) item = .ok true ∧
        (∃ bu2, openFilter (closeBF bu).toFile ro = .ok bu2 ∧
          containsE hi avail bu2 item = .ok true)) := by
  obtain ⟨hm, hk, hs, hoff, hlen, hms⟩ := hwf
  set idxs := hashIndices hi bf.hash_func_name bf.m bf.k item with hidxs
  have key : ∀ L : List Nat, (∀ h ∈ idxs, h ∈ L) →
      idxs.all (testIdx bf.size (setIndices bf.size bf.bits L)) = true := by
    intro L hsub
    rw [List.all_eq_true]
    intro h hmem
    have hltm : h < bf.m :=
      mem_hashIndices_lt hi bf.hash_func_name bf.m bf.k item
        (Nat.pos_of_ne_zero hm) h hmem
    exact testIdx_setIndices_mem bf.size L bf.bits h (hsub h hmem)
      (div8_lt_of_lt h bf.m bf.size hltm hms)
      (by rw [hlen]; exact div8_lt_of_lt h bf.m bf.size hltm hms)
  have hlen1 : (setIndices bf.size bf.bits idxs).length = bf.size := by
    rw [length_setIndices]; exact hlen
  refine ⟨{ bf with bits := setIndices bf.size bf.bits idxs }, ?_, ?_, ?_, ?_, ?_⟩
  · exact addE_eval hi avail bf item hw ho hh
  · rw [containsE_eval hi avail { bf with bits := setIndices bf.size bf.bits idxs } item ho hh]
    exact congrArg Except.ok (key idxs (fun h hmem => hmem))
  · rw [syncBF, containsE_eval hi avail { bf with bits := setIndices bf.size bf.bits idxs } item ho hh]
    exact congrArg Except.ok (key idxs (fun h hmem => hmem))
  · refine ⟨_, openFilter_wf ((closeBF { bf with bits := setIndices bf.size bf.bits idxs }).toFile) ro hm hk hs hoff hlen1, ?_⟩
    dsimp only [closeBF, BloomFilter.toFile]
    rw [containsE_eval hi avail { m := bf.m, k := bf.k, hash_func_name := bf.hash_func_name, size := bf.size, offset := bf.offset, alignment := bf.offset, readonly := ro, isOpen := true, bits := setIndices bf.size bf.bits idxs } item rfl hh]
    exact congrArg Except.ok (key idxs (fun h hmem => hmem))
  · intro hitem
    have hsub : ∀ h ∈ idxs,
        h ∈ (items.flatMap (hashIndices hi bf.hash_func_name bf.m bf.k)).dedup :=
      fun h hmem => List.mem_dedup.mpr (List.mem_flatMap.mpr ⟨item, hitem, hmem⟩)
    have hlen2 : (setIndices bf.size bf.bits
        ((items.flatMap (hashIndices hi bf.hash_func_name bf.m bf.k)).dedup)).length =
        bf.size := by
      rw [length_setIndices]; exact hlen
    refine ⟨_, updateE_eval hi avail bf items hw ho hh, ?_, ?_, ?_⟩
    · rw [containsE_eval hi avail { bf with bits := (setIndices bf.size bf.bits
        ((items.flatMap (hashIndices hi bf.hash_func_name bf.m bf.k)).dedup)) } item ho hh]
      exact congrArg Except.ok (key _ hsub)
    · rw [syncBF, containsE_eval hi avail { bf with bits := (setIndices bf.size bf.bits
        ((items.flatMap (hashIndices hi bf.hash_func_name bf.m bf.k)).dedup)) } item ho hh]
      exact congrArg Except.ok (key _ hsub)
    · refine ⟨_, openFilter_wf ((closeBF { bf with bits := (setIndices bf.size bf.bits
        ((items.flatMap (hashIndices hi bf.hash_func_name bf.m bf.k)).dedup)) }).toFile)
        ro hm hk hs hoff hlen2, ?_⟩
      dsimp only [closeBF, BloomFilter.toFile]
      rw [containsE_eval hi avail { m := bf.m, k := bf.k, hash_func_name := bf.hash_func_name, size := bf.size, offset := bf.offset, alignment := bf.offset, readonly := ro, isOpen := true, bits := (setIndices bf.size bf.bits ((items.flatMap (hashIndices hi bf.hash_func_name bf.m bf.k)).dedup)) } item rfl hh]
      exact congrArg Except.ok (key _ hsub)

/-- A small concrete well-formed filter used by the witnesses. -/
def sampleFilter : BloomFilter :=
  { m := 16, k := 2, hash_func_name := "md5", size := 2, offset := 1,
    alignment := 1, readonly := false, isOpen := true, bits := [0, 0] }

/-- Witness for `add_then_contains_persists` on a concrete filter. -/
theorem add_then_contains_persists_witness :
    ∃ bf1, addE sampleHash false sampleFilter [3] = .ok bf1 ∧
      containsE sampleHash false bf1 [3] = .ok true ∧
      containsE sampleHash false (syncBF bf1) [3] = .ok true ∧
      (∃ bf2, openFilter (closeBF bf1).toFile false = .ok bf2 ∧
        containsE sampleHash false bf2 [3] = .ok true) ∧
      ([3] ∈ [[7], [3]] →
        ∃ bu, updateE sampleHash false sampleFilter [[7], [3]] = .ok bu ∧
          containsE sampleHash false bu [3] = .ok true ∧
          containsE sampleHash false (syncBF bu) [3] = .ok true ∧
          (∃ bu2, openFilter (closeBF bu).toFile false = .ok bu2 ∧
            containsE sampleHash false bu2 [3] = .ok true)) :=
  add_then_contains_persists sampleHash false sampleFilter [3] false [[7], [3]]
    ⟨by decide, by decide, by decide, by decide, by decide, by decide⟩
    rfl rfl (by decide)

/-! ### Claim C2: bulk add is equivalent to per-item add -/

lemma setIndices_append (s : Nat) (b : Bytes) (l1 l2 : List Nat) :
    setIndices s b (l1 ++ l2) = setIndices s (setIndices s b l1) l2 :=
  List.foldl_append ..

lemma foldlM_addE (hi : HashImpl) (avail : Bool) :
    ∀ (items : List Bytes) (bf : BloomFilter), bf.readonly = false →
      bf.isOpen = true → hashOk avail bf = true →
      items.foldlM (addE hi avail) bf = .ok { bf with
        bits := setIndices bf.size bf.bits
          (items.flatMap (hashIndices hi bf.hash_func_name bf.m bf.k)) } := by
  intro items
  induction items with
  | nil => intro bf hw ho hh; rfl
  | cons it rest ih =>
    intro bf hw ho hh
    rw [List.foldlM_cons, addE_eval hi avail bf it hw ho hh]
    have hstep := ih { bf with bits := (setIndices bf.size bf.bits
      (hashIndices hi bf.hash_func_name bf.m bf.k it)) } hw ho hh
    show rest.foldlM (addE hi avail) { bf with bits := (setIndices bf.size bf.bits
      (hashIndices hi bf.hash_func_name bf.m bf.k it)) } = _
    rw [hstep, List.flatMap_cons, setIndices_append]

/-- Claim C2: on a usable open writable filter, `update(items)` (which
first unions the index sets of all items, then sets each unique bit
once) returns exactly the state that the sequence of per-item `add`
calls returns: the bulk path is observationally equivalent. -/
theorem update_eq_foldl_add (hi : HashImpl) (avail : Bool) (bf : BloomFilter)
    (items : List Bytes) (hw : bf.readonly = false) (ho : bf.isOpen = true)
    (hh : hashOk avail bf = true) :
    updateE hi avail bf items = items.foldlM (addE hi avail) bf := by
  rw [updateE_eval hi avail bf items hw ho hh, foldlM_addE hi avail items bf hw ho hh]
  have hdd : setIndices bf.size bf.bits
      ((items.flatMap (hashIndices hi bf.hash_func_name bf.m bf.k)).dedup) =
      setIndices bf.size bf.bits
        (items.flatMap (hashIndices hi bf.hash_func_name bf.m bf.k)) :=
    foldl_dedup (setIdx bf.size) (setIdx_comm bf.size) (setIdx_idem bf.size) _ bf.bits
  rw [hdd]

/-- Witness for `update_eq_foldl_add` on a concrete filter. -/
theorem update_eq_foldl_add_witness :
    updateE sampleHash false sampleFilter [[7], [3]] =
      [[7], [3]].foldlM (addE sampleHash false) sampleFilter :=
  update_eq_foldl_add sampleHash false sampleFilter [[7], [3]] rfl rfl (by decide)

/-! ### Claim C3: parameter mismatch on non-read-only reopen -/

/-- Claim C3: opening an existing filter file in read-write mode with an
explicit `m`, `k` or `hash_func_name` that differs from the header value
fails with the corresponding parameter-mismatch error; the open never
succeeds with either value. -/
theorem init_mismatch_fails (avail : Bool) (file : FilterFile) (bf : BloomFilter)
    (mArg kArg : Option Nat) (hashArg : Option String) (al : Nat)
    (hopen : openFilter file false = .ok bf) :
    (∀ mv, mArg = some mv → mv ≠ bf.m →
      bloomInit avail (some file) mArg kArg false hashArg al =
        .error .paramMismatchM) ∧
    (∀ kv, kArg = some kv → kv ≠ bf.k → (mArg = none ∨ mArg = some bf.m) →
      bloomInit avail (some file) mArg kArg false hashArg al =
        .error .paramMismatchK) ∧
    (∀ hv, hashArg = some hv → hv ≠ bf.hash_func_name →
      (mArg = none ∨ mArg = some bf.m) → (kArg = none ∨ kArg = some bf.k) →
      bloomInit avail (some file) mArg kArg false hashArg al =
        .error .paramMismatchHash) := by
  refine ⟨?_, ?_, ?_⟩
  · intro mv hmv hne
    subst hmv
    simp only [bloomInit]
    rw [hopen]
    simp [hne]
  · intro kv hkv hne hm0
    subst hkv
    simp only [bloomInit]
    rw [hopen]
    rcases hm0 with hm0 | hm0 <;> subst hm0 <;> simp [hne]
  · intro hv hhv hne hm0 hk0
    subst hhv
    simp only [bloomInit]
    rw [hopen]
    rcases hm0 with hm0 | hm0 <;> rcases hk0 with hk0 | hk0 <;>
      subst hm0 <;> subst hk0 <;> simp [hne]

/-- A concrete well-formed file with `m = 1000` for the C3 witness. -/
def sampleFile1000 : FilterFile :=
  { m := 1000, k := 7, offset := 1, size := 1, hash_func_name := "md5",
    data := [0] }

/-- Witness for `init_mismatch_fails`: the stored `m = 1000` versus a
caller-supplied `m = 2000`, not read-only. -/
theorem init_mismatch_fails_witness :
    bloomInit false (some sampleFile1000) (some 2000) none false none 1 =
      .error .paramMismatchM :=
  (init_mismatch_fails false sampleFile1000
      { m := 1000, k := 7, hash_func_name := "md5", size := 1, offset := 1,
        alignment := 1, readonly := false, isOpen := true, bits := [0] }
      (some 2000) none none 1 (by rfl)).1 2000 rfl (by decide)

/-! ### Claim C5: create/open round-trip -/

lemma le_alignedSize (b al : Nat) (hal : 0 < al) : b ≤ (b + al - 1) / al * al := by
  have h1 := Nat.div_add_mod (b + al - 1) al
  have h2 := Nat.mod_lt (b + al - 1) hal
  rw [Nat.mul_comm] at h1
  omega

lemma alignedSize_zero_al (m : Nat) : alignedSize m 0 = 0 := by
  rw [alignedSize, Nat.mul_zero]

/-- Claim C5: whenever creation succeeds, reopening the file it wrote
yields exactly the object creation returned — identical
`(m, k, hash_func_name)` — with the stored offset equal to the alignment
used at creation and the stored size a multiple of that alignment
satisfying `size ≥ ceil(m/8)`, hence `m ≤ 8*size`. -/
theorem create_open_roundtrip (m k al : Nat) (name : String) (bf : BloomFilter)
    (file : FilterFile) (hc : createFilter m k name al = .ok (bf, file)) :
    openFilter file false = .ok bf ∧
    bf.m = m ∧ bf.k = k ∧ bf.hash_func_name = name ∧
    bf.offset = al ∧ bf.size % al = 0 ∧ (m + 7) / 8 ≤ bf.size ∧ m ≤ 8 * bf.size := by
  rw [createFilter] at hc
  by_cases h1 : m = 0 ∨ k = 0
  · rw [if_pos h1] at hc; exact absurd hc (by simp)
  rw [if_neg h1] at hc
  by_cases h2 : alignedSize m al = 0
  · rw [if_pos h2] at hc; exact absurd hc (by simp)
  rw [if_neg h2] at hc
  by_cases h3 : al < headerLen m k al (alignedSize m al) name
  · rw [if_pos h3] at hc; exact absurd hc (by simp)
  rw [if_neg h3] at hc
  simp only [Except.ok.injEq, Prod.mk.injEq] at hc
  obtain ⟨hbf, hfile⟩ := hc
  subst hbf
  subst hfile
  have hal : al ≠ 0 := by
    intro h0
    exact h2 (by rw [h0]; exact alignedSize_zero_al m)
  have halpos : 0 < al := Nat.pos_of_ne_zero hal
  have hbyte : (m + 7) / 8 ≤ alignedSize m al := le_alignedSize ((m + 7) / 8) al halpos
  refine ⟨?_, rfl, rfl, rfl, rfl, Nat.mul_mod_left _ al, hbyte, ?_⟩
  · exact openFilter_wf _ false (fun h => h1 (Or.inl h)) (fun h => h1 (Or.inr h)) h2 hal
      (List.length_replicate ..)
  · have hm8 : m ≤ 8 * ((m + 7) / 8) := by omega
    calc m ≤ 8 * ((m + 7) / 8) := hm8
      _ ≤ 8 * alignedSize m al := Nat.mul_le_mul_left 8 hbyte

/-- The object `_create` returns for `m = 100`, `k = 3`, alignment 128. -/
def roundtripBF : BloomFilter :=
  { m := 100, k := 3, hash_func_name := "md5", size := 128, offset := 128,
    alignment := 128, readonly := false, isOpen := true,
    bits := List.replicate 128 0 }

/-- The file `_create` writes for `m = 100`, `k = 3`, alignment 128. -/
def roundtripFile : FilterFile :=
  { m := 100, k := 3, offset := 128, size := 128, hash_func_name := "md5",
    data := List.replicate 128 0 }

/-- Witness for `create_open_roundtrip` at `m = 100`, `k = 3`,
alignment 128 (the header is 72 bytes, so creation succeeds). -/
theorem create_open_roundtrip_witness :
    openFilter roundtripFile false = .ok roundtripBF ∧
    roundtripBF.m = 100 ∧ roundtripBF.k = 3 ∧
    roundtripBF.hash_func_name = "md5" ∧ roundtripBF.offset = 128 ∧
    roundtripBF.size % 128 = 0 ∧ (100 + 7) / 8 ≤ roundtripBF.size ∧
    100 ≤ 8 * roundtripBF.size :=
  create_open_roundtrip 100 3 128 "md5" roundtripBF roundtripFile (by rfl)

/-! ### Claim C10: silent hash-scheme fallback at creation -/

/-- The object created when murmur3 is requested but unavailable. -/
def fallbackBF (m k al : Nat) : BloomFilter :=
  { m := m, k := k, hash_func_name := DEFAULT_HASH_FUNC, size := alignedSize m al,
    offset := al, alignment := al, readonly := false, isOpen := true,
    bits := List.replicate (alignedSize m al) 0 }

/-- The file written when murmur3 is requested but unavailable. -/
def fallbackFile (m k al : Nat) : FilterFile :=
  { m := m, k := k, offset := al, size := alignedSize m al,
    hash_func_name := DEFAULT_HASH_FUNC,
    data := List.replicate (alignedSize m al) 0 }

/-- Claim C10: creating a new filter (file absent, not read-only) with
`hash_func_name = 'murmur3'` requested while `mmh3` is unavailable does
not fail: the constructor silently creates the filter with the fallback
scheme `'md5'` stored in the header, so the stored scheme differs from
the requested one. -/
theorem create_hash_fallback (m k al : Nat) (hm : m ≠ 0) (hk : k ≠ 0) (hal : 0 < al)
    (hhdr : headerLen m k al (alignedSize m al) DEFAULT_HASH_FUNC ≤ al) :
    ∃ bf file,
      bloomInit false none (some m) (some k) false (some FAST_HASH_FUNC) al =
        .ok (bf, file) ∧
      file.hash_func_name = DEFAULT_HASH_FUNC ∧
      bf.hash_func_name = DEFAULT_HASH_FUNC ∧
      FAST_HASH_FUNC ≠ DEFAULT_HASH_FUNC := by
  have hs : alignedSize m al ≠ 0 := by
    intro h0
    have hb : (m + 7) / 8 ≤ alignedSize m al := le_alignedSize ((m + 7) / 8) al hal
    rw [h0] at hb
    omega
  refine ⟨fallbackBF m k al, fallbackFile m k al, ?_, rfl, rfl, by decide⟩
  have hreduce : bloomInit false none (some m) (some k) false (some FAST_HASH_FUNC) al =
      if m = 0 ∨ k = 0 then .error .nonPositiveCreateParams
      else createFilter m k DEFAULT_HASH_FUNC al := by
    simp only [bloomInit, Option.getD_some, Bool.false_eq_true, if_false,
      eq_self_iff_true, and_self, if_true]
  rw [hreduce, if_neg (by simp [hm, hk]), createFilter, if_neg (by simp [hm, hk]),
    if_neg hs, if_neg (Nat.not_lt.mpr hhdr)]
  rfl

/-- Witness for `create_hash_fallback` at `m = 1000`, `k = 7`,
alignment 4096. -/
theorem create_hash_fallback_witness :
    ∃ bf file,
      bloomInit false none (some 1000) (some 7) false (some FAST_HASH_FUNC) 4096 =
        .ok (bf, file) ∧
      file.hash_func_name = DEFAULT_HASH_FUNC ∧
      bf.hash_func_name = DEFAULT_HASH_FUNC ∧
      FAST_HASH_FUNC ≠ DEFAULT_HASH_FUNC :=
  create_hash_fallback 1000 7 4096 (by decide) (by decide) (by decide) (by decide)

/-! ### The parameter calculator and the inspector (floating point modelled
over the reals) -/

/-- Python `round`: round half to even (used by `calculate_optimal_params`). -/
noncomputable def pyRound (x : ℝ) : ℤ :=
  if x - ⌊x⌋ = 1 / 2 then (if Even ⌊x⌋ then ⌊x⌋ else ⌊x⌋ + 1) else round x

/-- `calculate_optimal_params(n, p)` from the tool: validate
`0 < p < 1` and `n > 0`, then
`m_float = -(n*log p)/(log 2)^2`, `k_float = (m_float/n)*log 2`,
returning `(ceil(m_float), max 1 (round k_float))`. -/
noncomputable def calculate_optimal_params (n : ℤ) (p : ℝ) :
    Except BloomError (ℤ × ℤ) :=
  if ¬(0 < p ∧ p < 1) then .error .invalidP
  else if n ≤ 0 then .error .invalidN
  else
    .ok (⌈-((n : ℝ) * Real.log p) / (Real.log 2) ^ 2⌉,
         max 1 (pyRound ((-((n : ℝ) * Real.log p) / (Real.log 2) ^ 2 / (n : ℝ)) *
           Real.log 2)))

/-- The calculator as claim C4 words it: identical except that the `m`
appearing in the `k` formula is the already-ceiled bit count. -/
noncomputable def calculate_optimal_params_claim (n : ℤ) (p : ℝ) :
    Except BloomError (ℤ × ℤ) :=
  if ¬(0 < p ∧ p < 1) then .error .invalidP
  else if n ≤ 0 then .error .invalidN
  else
    .ok (⌈-((n : ℝ) * Real.log p) / (Real.log 2) ^ 2⌉,
         max 1 (pyRound (((⌈-((n : ℝ) * Real.log p) / (Real.log 2) ^ 2⌉ : ℝ) /
           (n : ℝ)) * Real.log 2)))

/-! ### Claim C7: monotonicity and positivity of the calculator -/

/-- Claim C7: for fixed `p` with `0 < p < 1` and positive `n1 ≤ n2`, the
bit count returned for `n2` is at least the one returned for `n1`; and
for every valid input the returned `m` is positive and `k ≥ 1`. -/
theorem calc_params_monotone (p : ℝ) (n1 n2 : ℤ) (hp0 : 0 < p) (hp1 : p < 1)
    (h1 : 0 < n1) (h12 : n1 ≤ n2) :
    ∃ m1 k1 m2 k2,
      calculate_optimal_params n1 p = .ok (m1, k1) ∧
      calculate_optimal_params n2 p = .ok (m2, k2) ∧
      m1 ≤ m2 ∧ 0 < m1 ∧ 0 < m2 ∧ 1 ≤ k1 ∧ 1 ≤ k2 := by
  have h2 : 0 < n2 := lt_of_lt_of_le h1 h12
  have hlog : Real.log p < 0 := Real.log_neg hp0 hp1
  have hl2 : 0 < Real.log 2 := Real.log_pos (by norm_num)
  have hl2sq : 0 < (Real.log 2) ^ 2 := pow_pos hl2 2
  have hmono : -((n1 : ℝ) * Real.log p) / (Real.log 2) ^ 2 ≤
      -((n2 : ℝ) * Real.log p) / (Real.log 2) ^ 2 := by
    apply (div_le_div_right hl2sq).mpr
    have := mul_le_mul_of_nonpos_right (Int.cast_le.mpr h12 : (n1 : ℝ) ≤ n2) hlog.le
    linarith
  have hc1 : (0 : ℝ) < (n1 : ℝ) := Int.cast_pos.mpr h1
  have hc2 : (0 : ℝ) < (n2 : ℝ) := Int.cast_pos.mpr h2
  have hpos1 : 0 < -((n1 : ℝ) * Real.log p) / (Real.log 2) ^ 2 :=
    div_pos (by nlinarith) hl2sq
  have hpos2 : 0 < -((n2 : ℝ) * Real.log p) / (Real.log 2) ^ 2 :=
    div_pos (by nlinarith) hl2sq
  refine ⟨⌈-((n1 : ℝ) * Real.log p) / (Real.log 2) ^ 2⌉,
    max 1 (pyRound ((-((n1 : ℝ) * Real.log p) / (Real.log 2) ^ 2 / (n1 : ℝ)) *
      Real.log 2)),
    ⌈-((n2 : ℝ) * Real.log p) / (Real.log 2) ^ 2⌉,
    max 1 (pyRound ((-((n2 : ℝ) * Real.log p) / (Real.log 2) ^ 2 / (n2 : ℝ)) *
      Real.log 2)),
    ?_, ?_, Int.ceil_mono hmono, Int.ceil_pos.mpr hpos1,
    Int.ceil_pos.mpr hpos2, le_max_left 1 _, le_max_left 1 _⟩
  · rw [calculate_optimal_params, if_neg (not_not_intro ⟨hp0, hp1⟩),
      if_neg (not_le.mpr h1)]
  · rw [calculate_optimal_params, if_neg (not_not_intro ⟨hp0, hp1⟩),
      if_neg (not_le.mpr h2)]

/-- Witness for `calc_params_monotone` at `p = 1/2`, `n1 = 1`, `n2 = 2`. -/
theorem calc_params_monotone_witness :
    ∃ m1 k1 m2 k2,
      calculate_optimal_params 1 (1 / 2) = .ok (m1, k1) ∧
      calculate_optimal_params 2 (1 / 2) = .ok (m2, k2) ∧
      m1 ≤ m2 ∧ 0 < m1 ∧ 0 < m2 ∧ 1 ≤ k1 ∧ 1 ≤ k2 :=
  calc_params_monotone (1 / 2) 1 2 (by norm_num) (by norm_num) (by norm_num)
    (by norm_num)

/-! ### Claim C4: the calculator formula (corrected: `k` uses the
un-ceiled `m_float`) -/

/-- Claim C4 as amended: on valid inputs the calculator returns
`m = ceil(-n*ln p/(ln 2)^2)` and `k = max(1, round(-ln p / ln 2))` — the
`k` formula divides the *un-ceiled* `m_float` by `n`, which simplifies
to `-ln p / ln 2`; invalid inputs fail with the invalid-argument
errors. -/
theorem calc_params_amended (n : ℤ) (p : ℝ) :
    (0 < p → p < 1 → 0 < n →
      calculate_optimal_params n p =
        .ok (⌈-((n : ℝ) * Real.log p) / (Real.log 2) ^ 2⌉,
             max 1 (pyRound (-(Real.log p) / Real.log 2)))) ∧
    (¬(0 < p ∧ p < 1) → calculate_optimal_params n p = .error .invalidP) ∧
    (0 < p → p < 1 → n ≤ 0 → calculate_optimal_params n p = .error .invalidN) := by
  refine ⟨?_, ?_, ?_⟩
  · intro hp0 hp1 hn
    have hncast : (n : ℝ) ≠ 0 := Int.cast_ne_zero.mpr (by omega)
    have hl2 : Real.log 2 ≠ 0 := ne_of_gt (Real.log_pos (by norm_num))
    rw [calculate_optimal_params, if_neg (not_not_intro ⟨hp0, hp1⟩),
      if_neg (not_le.mpr hn)]
    have harg : (-((n : ℝ) * Real.log p) / (Real.log 2) ^ 2 / (n : ℝ)) * Real.log 2 =
        -(Real.log p) / Real.log 2 := by
      field_simp
      ring
    rw [harg]
  · intro hbad
    rw [calculate_optimal_params, if_pos hbad]
  · intro hp0 hp1 hn
    rw [calculate_optimal_params, if_neg (not_not_intro ⟨hp0, hp1⟩), if_pos hn]

/-- Witness for `calc_params_amended` at `n = 2`, `p = 1/2`. -/
theorem calc_params_amended_witness :
    calculate_optimal_params 2 (1 / 2) =
      .ok (⌈-((2 : ℤ) * Real.log (1 / 2) : ℝ) / (Real.log 2) ^ 2⌉,
           max 1 (pyRound (-(Real.log (1 / 2)) / Real.log 2))) := by
  exact (calc_params_amended 2 (1 / 2)).1 (by norm_num) (by norm_num) (by norm_num)

/-- Counterexample to claim C4 as stated: at `n = 1`, `p = 0.38` the code
returns `k = 1` (it rounds `k_float = (m_float/n)*ln 2` computed from the
un-ceiled `m_float ≈ 2.014`), while the claim mandates
`k = max(1, round((ceil(m_float)/n)*ln 2)) = round(3*ln 2) = 2`. -/
theorem calc_params_ceiled_k_counterexample :
    calculate_optimal_params 1 (19 / 50) = .ok (3, 1) ∧
    calculate_optimal_params_claim 1 (19 / 50) = .ok (3, 2) := by
  have hl2lo : (0.6931471803 : ℝ) < Real.log 2 := Real.log_two_gt_d9
  have hl2hi : Real.log 2 < 0.6931471808 := Real.log_two_lt_d9
  have hl2pos : (0 : ℝ) < Real.log 2 := by linarith
  have hl2sq : (0 : ℝ) < (Real.log 2) ^ 2 := pow_pos hl2pos 2
  have hsqhi : (Real.log 2) ^ 2 < 0.48045302 := by nlinarith
  have hsqlo : (0.4804530 : ℝ) < (Real.log 2) ^ 2 := by nlinarith
  -- lower bound: 26/27 < log (50/19)
  have hexpL : Real.exp (Real.log ((50 : ℝ) / 19)) = (50 : ℝ) / 19 :=
    Real.exp_log (by norm_num)
  have hLlo : (26 : ℝ) / 27 < Real.log ((50 : ℝ) / 19) := by
    have he26 : Real.exp 26 = Real.exp 1 ^ 26 := by
      rw [show (26 : ℝ) = ((26 : ℕ) : ℝ) * 1 by norm_num, Real.exp_nat_mul]
    have hp26 : Real.exp 1 ^ 26 < (2.7182818286 : ℝ) ^ 26 :=
      pow_lt_pow_left Real.exp_one_lt_d9 (le_of_lt (Real.exp_pos 1)) (by norm_num)
    have hq : (2.7182818286 : ℝ) ^ 26 < ((50 : ℝ) / 19) ^ 27 := by norm_num
    have he27 : Real.exp ((27 : ℝ) * Real.log ((50 : ℝ) / 19)) =
        ((50 : ℝ) / 19) ^ 27 := by
      rw [show (27 : ℝ) = ((27 : ℕ) : ℝ) by norm_num, Real.exp_nat_mul, hexpL]
    have hlt : Real.exp 26 < Real.exp ((27 : ℝ) * Real.log ((50 : ℝ) / 19)) := by
      rw [he26, he27]; linarith
    have := Real.exp_lt_exp.mp hlt
    linarith
  -- upper bound: log (50/19) < 1
  have hLhi : Real.log ((50 : ℝ) / 19) < 1 := by
    have h5019 : (50 : ℝ) / 19 < Real.exp 1 := by
      have := Real.exp_one_gt_d9
      norm_num at this ⊢
      linarith
    have h2 : Real.exp (Real.log ((50 : ℝ) / 19)) < Real.exp 1 := by
      rw [hexpL]; exact h5019
    exact Real.exp_lt_exp.mp h2
  -- rewrite log (19/50)
  have hflip : Real.log ((19 : ℝ) / 50) = -Real.log ((50 : ℝ) / 19) := by
    rw [show ((19 : ℝ) / 50) = (((50 : ℝ) / 19))⁻¹ by norm_num, Real.log_inv]
  -- the un-ceiled m
  have hmval : -(((1 : ℤ) : ℝ) * Real.log ((19 : ℝ) / 50)) / (Real.log 2) ^ 2 =
      Real.log ((50 : ℝ) / 19) / (Real.log 2) ^ 2 := by
    rw [hflip]; push_cast; ring
  have hceil : ⌈-(((1 : ℤ) : ℝ) * Real.log ((19 : ℝ) / 50)) / (Real.log 2) ^ 2⌉ = 3 := by
    rw [hmval, Int.ceil_eq_iff]
    constructor
    · push_cast
      rw [lt_div_iff hl2sq]
      linarith
    · push_cast
      rw [div_le_iff hl2sq]
      linarith
  -- the code's k argument equals log(50/19) / log 2
  have hkarg : (-(((1 : ℤ) : ℝ) * Real.log ((19 : ℝ) / 50)) / (Real.log 2) ^ 2 /
      ((1 : ℤ) : ℝ)) * Real.log 2 = Real.log ((50 : ℝ) / 19) / Real.log 2 := by
    rw [hflip]
    push_cast
    field_simp
    ring
  have hxlo : (1 : ℝ) < Real.log ((50 : ℝ) / 19) / Real.log 2 := by
    rw [lt_div_iff hl2pos]
    linarith
  have hxhi : Real.log ((50 : ℝ) / 19) / Real.log 2 < 3 / 2 := by
    rw [div_lt_iff hl2pos]
    linarith
  have hfloorx : ⌊Real.log ((50 : ℝ) / 19) / Real.log 2⌋ = 1 := by
    rw [Int.floor_eq_iff]
    constructor
    · push_cast; linarith
    · push_cast; linarith
  have hroundx : pyRound (Real.log ((50 : ℝ) / 19) / Real.log 2) = 1 := by
    simp only [pyRound]
    rw [if_neg, round_eq, Int.floor_eq_iff]
    · constructor
      · push_cast; linarith
      · push_cast; linarith
    · rw [hfloorx]
      intro hcon
      push_cast at hcon
      linarith
  -- the claim's k argument is 3 * log 2
  have hylo : (2 : ℝ) ≤ ((3 : ℤ) : ℝ) / ((1 : ℤ) : ℝ) * Real.log 2 := by
    push_cast; linarith
  have hyhi : ((3 : ℤ) : ℝ) / ((1 : ℤ) : ℝ) * Real.log 2 < 5 / 2 := by
    push_cast; linarith
  have hfloory : ⌊((3 : ℤ) : ℝ) / ((1 : ℤ) : ℝ) * Real.log 2⌋ = 2 := by
    rw [Int.floor_eq_iff]
    constructor
    · push_cast at hylo ⊢; linarith
    · push_cast at hyhi ⊢; linarith
  have hroundy : pyRound (((3 : ℤ) : ℝ) / ((1 : ℤ) : ℝ) * Real.log 2) = 2 := by
    simp only [pyRound]
    rw [if_neg, round_eq, Int.floor_eq_iff]
    · constructor
      · push_cast at hylo ⊢; linarith
      · push_cast at hyhi ⊢; linarith
    · rw [hfloory]
      intro hcon
      push_cast at hcon
      linarith
  constructor
  · rw [calculate_optimal_params, if_neg (not_not_intro ⟨by norm_num, by norm_num⟩),
      if_neg (by norm_num), hkarg, hroundx, hceil]
    rfl
  · rw [calculate_optimal_params_claim, if_neg (not_not_intro ⟨by norm_num, by norm_num⟩),
      if_neg (by norm_num), hceil, hroundy]
    rfl

/-! ### Claim C8: the inspector's false-positive estimate -/

/-- The estimate section of `cmd_info`: given the stored `m`, `k` and a
caller-estimated population `n`, guard `n > 0` and `m, k > 0`, then
report `p = (1 - e^(-k*n/m))^k` — except that an exponent below `-700`
reports `p = 0.0` — together with the optimal `k` for these `m`, `n`,
namely `(m/n)*log 2`. -/
noncomputable def infoEstimates (m k : Nat) (n : Int) : Option (ℝ × ℝ) :=
  if n ≤ 0 then none
  else if m = 0 ∨ k = 0 then none
  else
    some (if -(k : ℝ) * (n : ℝ) / (m : ℝ) < -700 then 0
          else (1 - Real.exp (-(k : ℝ) * (n : ℝ) / (m : ℝ))) ^ k,
          ((m : ℝ) / (n : ℝ)) * Real.log 2)

/-- Claim C8: for stored `m > 0`, `k > 0` and estimated population
`n > 0` the inspector reports the theoretical false-positive probability
`(1 - e^(-k*n/m))^k`, reporting `0.0` instead when the exponent
`-k*n/m` is below `-700`, and also reports the optimal hash count
`(m/n)*ln 2`. -/
theorem info_estimates_spec (m k : Nat) (n : Int) (hm : 0 < m) (hk : 0 < k)
    (hn : 0 < n) :
    ∃ p okf, infoEstimates m k n = some (p, okf) ∧
      okf = ((m : ℝ) / (n : ℝ)) * Real.log 2 ∧
      (-(k : ℝ) * (n : ℝ) / (m : ℝ) < -700 → p = 0) ∧
      (¬(-(k : ℝ) * (n : ℝ) / (m : ℝ) < -700) →
        p = (1 - Real.exp (-(k : ℝ) * (n : ℝ) / (m : ℝ))) ^ k) := by
  refine ⟨if -(k : ℝ) * (n : ℝ) / (m : ℝ) < -700 then 0
      else (1 - Real.exp (-(k : ℝ) * (n : ℝ) / (m : ℝ))) ^ k,
    ((m : ℝ) / (n : ℝ)) * Real.log 2, ?_, rfl, ?_, ?_⟩
  · rw [infoEstimates, if_neg (not_le.mpr hn), if_neg (by omega)]
  · intro hext
    rw [if_pos hext]
  · intro hext
    rw [if_neg hext]

/-- Witness for `info_estimates_spec` at `m = 8`, `k = 2`, `n = 5`. -/
theorem info_estimates_spec_witness :
    ∃ p okf, infoEstimates 8 2 5 = some (p, okf) ∧
      okf = ((8 : ℝ) / ((5 : ℤ) : ℝ)) * Real.log 2 ∧
      (-((2 : ℕ) : ℝ) * ((5 : ℤ) : ℝ) / ((8 : ℕ) : ℝ) < -700 → p = 0) ∧
      (¬(-((2 : ℕ) : ℝ) * ((5 : ℤ) : ℝ) / ((8 : ℕ) : ℝ) < -700) →
        p = (1 - Real.exp (-((2 : ℕ) : ℝ) * ((5 : ℤ) : ℝ) / ((8 : ℕ) : ℝ))) ^ 2) :=
  info_estimates_spec 8 2 5 (by norm_num) (by norm_num) (by norm_num)
